import Mathlib

/-!
Verification of the extraction-mapping pipeline of the rfq_analyzer repository.

The development shallowly embeds the data model (`models/__init__.py`), the
field mapper and spec extractor (`analyzer/spec_extractor.py`) and the
translation cache/service (`translator/translator.py`).  Python floats are
modelled as exact rationals (all confidence arithmetic in the source is
order-theoretic and exact on the values involved); Python strings are modelled
as Lean strings with character-list based `lower`/`strip` helpers mirroring
`str.lower()` / `str.strip()`.  The external JSON library and the LLM oracle
are modelled at the level of their observable outcomes.
-/

namespace RfqAnalyzer

/-- Python `str.lower()`: lowercase every character. -/
def pyLower (s : String) : String := ⟨s.data.map Char.toLower⟩

/-- Python `str.strip()`: drop leading and trailing whitespace. -/
def pyStrip (s : String) : String :=
  ⟨((s.data.dropWhile Char.isWhitespace).reverse.dropWhile Char.isWhitespace).reverse⟩

/-- Python `needle in hay` on strings: substring containment. -/
def strContainsSub (hay needle : String) : Bool :=
  (List.range (hay.data.length + 1)).any fun i => needle.data.isPrefixOf (hay.data.drop i)

/-! ## Data model (`models/__init__.py`) -/

/-- `models.SpecReference` dataclass. -/
structure SpecReference where
  source_file : String
  page_label : String
  original_text : String
  translated_text : String
  confidence : ℚ
deriving Repr, DecidableEq

/-- `models.ExtractedSpec` dataclass. -/
structure ExtractedSpec where
  spec_name : String
  value : String
  unit : String
  condition : String
  confidence : ℚ
  reference : Option SpecReference
deriving Repr, DecidableEq

/-- `models.TemplateField` dataclass. -/
structure TemplateField where
  row : Int
  col_spec_name : Int
  col_oem_value : Int
  col_lge_value : Int
  spec_name : String
  oem_value : String
  lge_value : String
deriving Repr, DecidableEq

/-- `models.MappingResult` dataclass. -/
structure MappingResult where
  template_field : TemplateField
  extracted_spec : ExtractedSpec
  match_confidence : ℚ
deriving Repr, DecidableEq

/-- `models.ParsedPage` dataclass. -/
structure ParsedPage where
  page_number : Int
  page_label : String
  text : String
  tables : List (List (List String))
  language : String
  text_translated : String
  original_text : String
deriving Repr, DecidableEq

/-! ## Field mapper (`SpecExtractor.map_specs_to_template`) -/

/-- The exact-match test of `map_specs_to_template`:
`spec.spec_name.lower().strip() == field.spec_name.lower().strip()`. -/
def exactMatch (spec : ExtractedSpec) (f : TemplateField) : Bool :=
  pyStrip (pyLower spec.spec_name) == pyStrip (pyLower f.spec_name)

/-- The partial-match test of `map_specs_to_template`:
`spec.spec_name.lower() in field.spec_name.lower() or
 field.spec_name.lower() in spec.spec_name.lower()`. -/
def partMatch (spec : ExtractedSpec) (f : TemplateField) : Bool :=
  strContainsSub (pyLower f.spec_name) (pyLower spec.spec_name) ||
  strContainsSub (pyLower spec.spec_name) (pyLower f.spec_name)

/-- The inner `for field in template_fields` loop of `map_specs_to_template`,
threading the `(best_match, best_confidence)` accumulator.  `used_fields` is
the set of the same name in the source; the source never adds to it (the
"Don't mark as used" comment), so the membership test never skips a field. -/
def scanFields (spec : ExtractedSpec) (used_fields : List Int) :
    List TemplateField → Option TemplateField × ℚ → Option TemplateField × ℚ
  | [], acc => acc
  | f :: rest, acc =>
    if f.row ∈ used_fields then scanFields spec used_fields rest acc
    else if exactMatch spec f then (some f, 1)
    else if partMatch spec f = true ∧ acc.2 < spec.confidence then
      scanFields spec used_fields rest (some f, spec.confidence * (9 / 10))
    else scanFields spec used_fields rest acc

/-- The `(best_match, best_confidence)` pair computed for one spec, starting
from `(None, 0.0)` with the (always empty) `used_fields` set. -/
def bestCandidate (spec : ExtractedSpec) (template_fields : List TemplateField) :
    Option TemplateField × ℚ :=
  scanFields spec [] template_fields (none, 0)

/-- The `mappings` list built by the outer loop of `map_specs_to_template`:
one tentative `MappingResult` per spec whose best candidate exists and has
confidence strictly above `0.3`. -/
def tentativeMappings (extracted_specs : List ExtractedSpec)
    (template_fields : List TemplateField) : List MappingResult :=
  extracted_specs.filterMap fun spec =>
    match bestCandidate spec template_fields with
    | (some f, c) => if 3 / 10 < c then some ⟨f, spec, c⟩ else none
    | (none, _) => none

/-- Lookup in the insertion-ordered `best_mappings` dict, keyed by row. -/
def findRow (r : Int) : List (Int × MappingResult) → Option MappingResult
  | [] => none
  | p :: rest => if p.1 = r then some p.2 else findRow r rest

/-- One step of the deduplication loop:
`if row not in best_mappings or m.match_confidence > best_mappings[row].match_confidence:
    best_mappings[row] = m`.
A Python dict update keeps the key's original insertion position, hence the
in-place map on an existing key and the append on a fresh key. -/
def updateBest (acc : List (Int × MappingResult)) (m : MappingResult) :
    List (Int × MappingResult) :=
  match findRow m.template_field.row acc with
  | none => acc ++ [(m.template_field.row, m)]
  | some prev =>
    if prev.match_confidence < m.match_confidence then
      acc.map fun p => if p.1 = m.template_field.row then (p.1, m) else p
    else acc

/-- `list(best_mappings.values())` after folding all tentative mappings. -/
def dedupMappings (ms : List MappingResult) : List MappingResult :=
  (ms.foldl updateBest []).map Prod.snd

/-- `SpecExtractor.map_specs_to_template`. -/
def map_specs_to_template (extracted_specs : List ExtractedSpec)
    (template_fields : List TemplateField) : List MappingResult :=
  if extracted_specs.isEmpty then []
  else dedupMappings (tentativeMappings extracted_specs template_fields)

/-- `SpecExtractor.get_unmatched_specs`: the source filters by membership of
the lowered name in a Python set of lowered mapped names; set membership is
extensionally list membership. -/
def get_unmatched_specs (extracted_specs : List ExtractedSpec)
    (mappings : List MappingResult) : List ExtractedSpec :=
  extracted_specs.filter fun s =>
    !((mappings.map fun m => pyLower m.extracted_spec.spec_name).contains
        (pyLower s.spec_name))

/-! ## Spec extraction (`SpecExtractor.extract_specs_from_page`)

`json.loads` and the Gemini call are external; the oracle response is modelled
at the granularity the code observes after code-fence stripping: the call
raised, the cleaned response failed to parse as JSON, it parsed to a non-list,
or it parsed to a list of items (JSON objects read with `.get` defaults). -/

/-- One JSON object of the oracle's response array; `none` models a missing
key, read by `item.get(key, default)`. -/
structure RespItem where
  spec_name : Option String
  value : Option String
  unit : Option String
  condition : Option String
  confidence : Option ℚ
  source_text : Option String
deriving Repr, DecidableEq

/-- Outcome of `self.client.generate` followed by cleaning and `json.loads`. -/
inductive GenResult where
  | genFailure
  | parseError
  | notAList
  | jsonList (items : List RespItem)
deriving Repr, DecidableEq

/-- `SpecExtractor._find_original_snippet`. -/
def find_original_snippet (original_text translated_snippet : String) : String :=
  if strContainsSub original_text translated_snippet then translated_snippet
  else "[See original document for source text]"

/-- The `SpecReference` built for one response item.  The source first sets
`original_text` to the reported snippet and then conditionally overwrites it
(`if original_text and original_text != page_text`); the net effect is this
conditional. -/
def mkSpecReference (page_text original_text page_label file_name : String)
    (item : RespItem) : SpecReference :=
  { source_file := file_name
    page_label := page_label
    original_text :=
      if original_text ≠ "" ∧ original_text ≠ page_text then
        find_original_snippet original_text (item.source_text.getD "")
      else item.source_text.getD ""
    translated_text := item.source_text.getD ""
    confidence := item.confidence.getD 0 }

/-- The `ExtractedSpec` built for one response item. -/
def mkExtractedSpec (page_text original_text page_label file_name : String)
    (item : RespItem) : ExtractedSpec :=
  { spec_name := item.spec_name.getD ""
    value := item.value.getD ""
    unit := item.unit.getD ""
    condition := item.condition.getD ""
    confidence := item.confidence.getD 0
    reference := some (mkSpecReference page_text original_text page_label file_name item) }

/-- `SpecExtractor.extract_specs_from_page`.  Returns the extracted specs
together with the number of oracle invocations (0 on the blank-page early
return, 1 otherwise).  `template_fields` only feeds the prompt in the source,
which is opaque to the oracle outcome. -/
def extract_specs_from_page (gen : GenResult)
    (page_text original_text page_label file_name : String)
    (template_fields : List TemplateField) : List ExtractedSpec × Nat :=
  if pyStrip page_text = "" then ([], 0)
  else
    match gen with
    | .genFailure => ([], 1)
    | .parseError => ([], 1)
    | .notAList => ([], 1)
    | .jsonList items =>
      (items.map (mkExtractedSpec page_text original_text page_label file_name), 1)

/-! ## Translation cache and service (`translator/translator.py`)

The md5 content hash and the Gemini call are external: the hash is an abstract
key function, the oracle an abstract `(source_lang, text) ↦ Option response`
(`none` models a raised exception, the prompt construction is injective in the
pair and opaque to the outcome).  The on-disk cache folder is a key-to-payload
map; `_load_from_cache` reads back only the `translated_text` field, so the
model stores just that. -/

/-- The cache folder: one `{key}.json` file per key, holding the translation. -/
abbrev TranslationCache := List (String × String)

/-- Read a cache file. -/
def cacheLookup (key : String) : TranslationCache → Option String
  | [] => none
  | p :: rest => if p.1 = key then some p.2 else cacheLookup key rest

/-- `cache_file.write_text`: overwrite the file for `key`, or create it. -/
def cacheInsert (key v : String) : TranslationCache → TranslationCache
  | [] => [(key, v)]
  | p :: rest => if p.1 = key then (key, v) :: rest else p :: cacheInsert key v rest

/-- `translator.GeminiTranslator` configuration and collaborators. -/
structure GeminiTranslator where
  cache_enabled : Bool
  cacheKey : String → String
  oracle : String → String → Option String
  detect : String → String
  needs_translation : String → Bool

/-- `GeminiTranslator._load_from_cache`. -/
def load_from_cache (tr : GeminiTranslator) (cache : TranslationCache)
    (cache_key : String) : Option String :=
  if tr.cache_enabled then cacheLookup cache_key cache else none

/-- `GeminiTranslator._save_to_cache` (the truncated `original_text` stored in
the file is never read back, so only the translation is modelled). -/
def save_to_cache (tr : GeminiTranslator) (cache : TranslationCache)
    (cache_key original translated : String) : TranslationCache :=
  if tr.cache_enabled then cacheInsert cache_key translated cache else cache

/-- Result of one `translate_text` call: returned string, cache folder state
after the call, and the number of oracle invocations. -/
structure TranslateOutcome where
  result : String
  cache : TranslationCache
  oracle_calls : Nat
deriving Repr, DecidableEq

/-- `GeminiTranslator.translate_text`.  Note the Python truthiness test
`if cached:`: both a missing cache file and a cached empty string fall through
to the oracle. -/
def translate_text (tr : GeminiTranslator) (cache : TranslationCache)
    (text source_lang : String) : TranslateOutcome :=
  if pyStrip text = "" then ⟨text, cache, 0⟩
  else
    let cache_key := tr.cacheKey text
    let oracle_step : TranslateOutcome :=
      match tr.oracle source_lang text with
      | some resp =>
        let translated := pyStrip resp
        ⟨translated, save_to_cache tr cache cache_key text translated, 1⟩
      | none => ⟨text, cache, 1⟩
    match load_from_cache tr cache cache_key with
    | some c => if c = "" then oracle_step else ⟨c, cache, 0⟩
    | none => oracle_step

/-- `GeminiTranslator.translate_page`. -/
def translate_page (tr : GeminiTranslator) (cache : TranslationCache)
    (page : ParsedPage) : ParsedPage × TranslationCache × Nat :=
  let lang := tr.detect page.text
  let page1 : ParsedPage := { page with language := lang }
  if tr.needs_translation lang then
    let tt := translate_text tr cache page1.text lang
    ({ page1 with original_text := page1.text, text_translated := tt.result,
                  text := tt.result },
     tt.cache, tt.oracle_calls)
  else
    ({ page1 with original_text := page1.text, text_translated := page1.text },
     cache, 0)

/-! ## Concrete instances used by counterexamples and witnesses -/

/-- A spec whose name partially matches both fields below. -/
def cexSpec : ExtractedSpec :=
  { spec_name := "lum", value := "500", unit := "nit", condition := "",
    confidence := 4 / 5, reference := none }

/-- First template field, row 1, partially matching `cexSpec`. -/
def cexF1 : TemplateField :=
  { row := 1, col_spec_name := 1, col_oem_value := 2, col_lge_value := 3,
    spec_name := "lum a", oem_value := "", lge_value := "" }

/-- Second template field, row 2, partially matching `cexSpec`. -/
def cexF2 : TemplateField :=
  { row := 2, col_spec_name := 1, col_oem_value := 2, col_lge_value := 3,
    spec_name := "lum b", oem_value := "", lge_value := "" }

/-- A field whose name equals `cexExactSpec` up to case and whitespace. -/
def cexExactField : TemplateField :=
  { row := 7, col_spec_name := 1, col_oem_value := 2, col_lge_value := 3,
    spec_name := "Contrast Ratio", oem_value := "", lge_value := "" }

/-- A spec named exactly (case/space-insensitively) like `cexExactField`. -/
def cexExactSpec : ExtractedSpec :=
  { spec_name := " contrast ratio ", value := "1500:1", unit := "",
    condition := "25C", confidence := 1 / 2, reference := none }

/-- A response item reporting a confidence outside the unit interval. -/
def badItem : RespItem :=
  { spec_name := some "Luminance", value := some "1000 nit", unit := some "nit",
    condition := some "", confidence := some (3 / 2), source_text := some "snippet" }

/-- A translator whose oracle always raises. -/
def stubFailTranslator : GeminiTranslator :=
  { cache_enabled := true
    cacheKey := fun t => t
    oracle := fun _ _ => none
    detect := fun _ => "de"
    needs_translation := fun l => l == "de" }

/-- A translator whose oracle deterministically succeeds. -/
def stubOkTranslator : GeminiTranslator :=
  { cache_enabled := true
    cacheKey := fun t => t
    oracle := fun _ t => some ("EN " ++ t)
    detect := fun _ => "de"
    needs_translation := fun l => l == "de" }

/-- A German page for the fail-soft scenario. -/
def cexPage : ParsedPage :=
  { page_number := 1, page_label := "Page 1", text := "Hallo Welt", tables := [],
    language := "en", text_translated := "", original_text := "" }

/-! ## Lemmas about the field scan -/

theorem scanFields_nil (s : ExtractedSpec) (used : List Int)
    (acc : Option TemplateField × ℚ) : scanFields s used [] acc = acc := rfl

theorem scanFields_cons_exact (s : ExtractedSpec) (f : TemplateField)
    (rest : List TemplateField) (acc : Option TemplateField × ℚ)
    (hf : exactMatch s f = true) :
    scanFields s [] (f :: rest) acc = (some f, 1) := by
  rw [scanFields, if_neg (List.not_mem_nil f.row), if_pos hf]

theorem scanFields_cons_upd (s : ExtractedSpec) (f : TemplateField)
    (rest : List TemplateField) (acc : Option TemplateField × ℚ)
    (hex : exactMatch s f = false) (hp : partMatch s f = true)
    (hlt : acc.2 < s.confidence) :
    scanFields s [] (f :: rest) acc =
      scanFields s [] rest (some f, s.confidence * (9 / 10)) := by
  rw [scanFields, if_neg (List.not_mem_nil f.row), if_neg (by simp [hex]),
    if_pos ⟨hp, hlt⟩]

theorem scanFields_cons_keep (s : ExtractedSpec) (f : TemplateField)
    (rest : List TemplateField) (acc : Option TemplateField × ℚ)
    (hex : exactMatch s f = false)
    (h : ¬(partMatch s f = true ∧ acc.2 < s.confidence)) :
    scanFields s [] (f :: rest) acc = scanFields s [] rest acc := by
  rw [scanFields, if_neg (List.not_mem_nil f.row), if_neg (by simp [hex]), if_neg h]

/-- When every field (none exact, all partial) matches and the spec has
positive confidence, the scan ends on the last field: the raw confidence is
compared against the stored `confidence * 0.9`, so each later partial match
replaces the earlier one. -/
theorem scan_partial_all (s : ExtractedSpec) (hconf : 0 < s.confidence) :
    ∀ (fields : List TemplateField) (hne : fields ≠ [])
      (acc : Option TemplateField × ℚ),
      (∀ f ∈ fields, exactMatch s f = false) →
      (∀ f ∈ fields, partMatch s f = true) →
      acc.2 < s.confidence →
      scanFields s [] fields acc =
        (some (fields.getLast hne), s.confidence * (9 / 10)) := by
  intro fields
  induction fields with
  | nil => intro hne; exact absurd rfl hne
  | cons f rest ih =>
    intro hne acc hex hpart hacc
    have hf_ex : exactMatch s f = false := hex f (by simp)
    have hf_pa : partMatch s f = true := hpart f (by simp)
    rw [scanFields_cons_upd _ _ _ _ hf_ex hf_pa hacc]
    cases rest with
    | nil => simp [scanFields_nil, List.getLast]
    | cons g rest' =>
      have hne' : g :: rest' ≠ [] := List.cons_ne_nil g rest'
      rw [ih hne' (some f, s.confidence * (9 / 10))
        (fun x hx => hex x (List.mem_cons_of_mem f hx))
        (fun x hx => hpart x (List.mem_cons_of_mem f hx))
        (mul_lt_of_lt_one_right hconf (by norm_num))]
      rw [List.getLast_cons hne']

/-- The scan short-circuits at the first exact match, returning it with
confidence 1, whatever came before and whatever follows. -/
theorem scan_exact_first (s : ExtractedSpec) (f : TemplateField)
    (post : List TemplateField) (hf : exactMatch s f = true) :
    ∀ (pre : List TemplateField) (acc : Option TemplateField × ℚ),
      (∀ g ∈ pre, exactMatch s g = false) →
      scanFields s [] (pre ++ f :: post) acc = (some f, 1) := by
  intro pre
  induction pre with
  | nil => intro acc _; rw [List.nil_append, scanFields_cons_exact _ _ _ _ hf]
  | cons g rest ih =>
    intro acc hall
    have hg : exactMatch s g = false := hall g (by simp)
    by_cases hp : partMatch s g = true ∧ acc.2 < s.confidence
    · rw [List.cons_append, scanFields_cons_upd _ _ _ _ hg hp.1 hp.2]
      exact ih _ fun g' hg' => hall g' (List.mem_cons_of_mem g hg')
    · rw [List.cons_append, scanFields_cons_keep _ _ _ _ hg hp]
      exact ih _ fun g' hg' => hall g' (List.mem_cons_of_mem g hg')

/-! ## Claims C1 and C2 -/

/-- C2: in `map_specs_to_template`, a spec whose name equals a template
field's name after lowercasing and trimming is matched to the first such field
in template order with confidence exactly 1.0; the scan stops there (the
result does not depend on the fields after it, on earlier partially matching
fields, or on the spec's own extraction confidence), and the spec's tentative
mapping carries that field with confidence 1. -/
theorem mapper_exact_match_precedence (s : ExtractedSpec)
    (pre post : List TemplateField) (f : TemplateField)
    (hpre : ∀ g ∈ pre, exactMatch s g = false)
    (hf : exactMatch s f = true) :
    bestCandidate s (pre ++ f :: post) = (some f, 1) ∧
    tentativeMappings [s] (pre ++ f :: post) = [⟨f, s, 1⟩] := by
  have hbest : bestCandidate s (pre ++ f :: post) = (some f, 1) :=
    scan_exact_first s f post hf pre (none, 0) hpre
  refine ⟨hbest, ?_⟩
  unfold tentativeMappings
  simp only [List.filterMap_cons, List.filterMap_nil, hbest]
  rw [if_pos (by norm_num)]

/-- C2 witness at a concrete spec and template. -/
theorem mapper_exact_match_precedence_witness :
    bestCandidate cexExactSpec ([cexF1] ++ cexExactField :: [cexF2]) =
      (some cexExactField, 1) ∧
    tentativeMappings [cexExactSpec] ([cexF1] ++ cexExactField :: [cexF2]) =
      [⟨cexExactField, cexExactSpec, 1⟩] :=
  mapper_exact_match_precedence cexExactSpec [cexF1] [cexF2] cexExactField
    (by decide) (by decide)

/-- Concrete best-candidate run used by the C1 counterexample and witness:
both fields partially match, and the second one (row 2) wins the scan. -/
theorem cex_best :
    bestCandidate cexSpec [cexF1, cexF2] =
      (some cexF2, cexSpec.confidence * (9 / 10)) := by
  unfold bestCandidate
  rw [scanFields]
  rw [if_neg (by decide), if_neg (by decide),
    if_pos ⟨by decide, by norm_num [cexSpec]⟩]
  rw [scanFields]
  rw [if_neg (by decide), if_neg (by decide),
    if_pos ⟨by decide, by norm_num [cexSpec]⟩]
  rfl

/-- Concrete tentative-mapping list for the C1 counterexample. -/
theorem cex_tents :
    tentativeMappings [cexSpec] [cexF1, cexF2] =
      [⟨cexF2, cexSpec, cexSpec.confidence * (9 / 10)⟩] := by
  unfold tentativeMappings
  simp only [List.filterMap_cons, List.filterMap_nil, cex_best]
  rw [if_pos (by norm_num [cexSpec])]

/-- C1 counterexample: a spec with extraction confidence 0.8 partially matches
two fields (rows 1 and 2, equal candidate confidence 0.72 each); the mapper
keeps the LAST field in template order, not the first, because the source
compares the raw extraction confidence (0.8) — not the candidate confidence
(0.72) — against the current best. -/
theorem mapper_partial_first_field_cex :
    exactMatch cexSpec cexF1 = false ∧ exactMatch cexSpec cexF2 = false ∧
    partMatch cexSpec cexF1 = true ∧ partMatch cexSpec cexF2 = true ∧
    (map_specs_to_template [cexSpec] [cexF1, cexF2]).map
      (fun m => m.template_field.row) = [2] := by
  refine ⟨by decide, by decide, by decide, by decide, ?_⟩
  have h : map_specs_to_template [cexSpec] [cexF1, cexF2] =
      [⟨cexF2, cexSpec, cexSpec.confidence * (9 / 10)⟩] := by
    unfold map_specs_to_template
    rw [if_neg (by decide), cex_tents]
    rfl
  rw [h]
  rfl

/-- C1 (amended): a partial match contributes candidate confidence
`extraction confidence × 0.9`, but it replaces the spec's current best
candidate whenever the RAW extraction confidence exceeds the current best
confidence; hence with several partially matching fields (none exact) and
positive extraction confidence, the LAST field in template order is kept. -/
theorem mapper_partial_last_wins (s : ExtractedSpec) (fields : List TemplateField)
    (hne : fields ≠ [])
    (hex : ∀ f ∈ fields, exactMatch s f = false)
    (hpart : ∀ f ∈ fields, partMatch s f = true)
    (hconf : 0 < s.confidence)
    (hthr : 3 / 10 < s.confidence * (9 / 10)) :
    map_specs_to_template [s] fields =
      [⟨fields.getLast hne, s, s.confidence * (9 / 10)⟩] := by
  have hbest : bestCandidate s fields =
      (some (fields.getLast hne), s.confidence * (9 / 10)) :=
    scan_partial_all s hconf fields hne (none, 0) hex hpart hconf
  have htents : tentativeMappings [s] fields =
      [⟨fields.getLast hne, s, s.confidence * (9 / 10)⟩] := by
    unfold tentativeMappings
    simp only [List.filterMap_cons, List.filterMap_nil, hbest]
    rw [if_pos hthr]
  unfold map_specs_to_template
  rw [if_neg (by simp), htents]
  rfl

/-- C1 (amended) witness at the concrete spec and fields of the
counterexample. -/
theorem mapper_partial_last_wins_witness :
    map_specs_to_template [cexSpec] [cexF1, cexF2] =
      [⟨cexF2, cexSpec, cexSpec.confidence * (9 / 10)⟩] := by
  have h := mapper_partial_last_wins cexSpec [cexF1, cexF2]
    (List.cons_ne_nil cexF1 [cexF2]) (by decide) (by decide)
    (by norm_num [cexSpec]) (by norm_num [cexSpec])
  exact h

/-! ## Lemmas about the deduplication fold -/

theorem updateBest_none {acc : List (Int × MappingResult)} {m : MappingResult}
    (h : findRow m.template_field.row acc = none) :
    updateBest acc m = acc ++ [(m.template_field.row, m)] := by
  unfold updateBest
  rw [h]

theorem updateBest_some_lt {acc : List (Int × MappingResult)} {m prev : MappingResult}
    (h : findRow m.template_field.row acc = some prev)
    (hlt : prev.match_confidence < m.match_confidence) :
    updateBest acc m =
      acc.map fun p => if p.1 = m.template_field.row then (p.1, m) else p := by
  unfold updateBest
  rw [h]
  exact if_pos hlt

theorem updateBest_some_ge {acc : List (Int × MappingResult)} {m prev : MappingResult}
    (h : findRow m.template_field.row acc = some prev)
    (hge : ¬ prev.match_confidence < m.match_confidence) :
    updateBest acc m = acc := by
  unfold updateBest
  rw [h]
  exact if_neg hge

theorem findRow_eq_none {r : Int} : ∀ {acc : List (Int × MappingResult)},
    findRow r acc = none ↔ ∀ p ∈ acc, p.1 ≠ r := by
  intro acc
  induction acc with
  | nil => simp [findRow]
  | cons p rest ih =>
    unfold findRow
    by_cases hp : p.1 = r
    · simp [hp]
    · simp [hp, ih]

theorem findRow_mem {r : Int} : ∀ {acc : List (Int × MappingResult)}
    {v : MappingResult}, findRow r acc = some v → (r, v) ∈ acc := by
  intro acc
  induction acc with
  | nil => intro v h; simp [findRow] at h
  | cons p rest ih =>
    intro v h
    unfold findRow at h
    by_cases hp : p.1 = r
    · rw [if_pos hp] at h
      injection h with h
      have : (r, v) = p := by
        cases p
        simp only at hp h
        simp [hp, h]
      rw [this]
      exact List.mem_cons_self p rest
    · rw [if_neg hp] at h
      exact List.mem_cons_of_mem _ (ih h)

theorem keys_unique : ∀ {acc : List (Int × MappingResult)},
    (acc.map Prod.fst).Nodup → ∀ {r : Int} {a b : MappingResult},
    (r, a) ∈ acc → (r, b) ∈ acc → a = b := by
  intro acc
  induction acc with
  | nil => intro _ r a b ha _; cases ha
  | cons p rest ih =>
    intro h r a b ha hb
    rw [List.map_cons, List.nodup_cons] at h
    rcases List.mem_cons.mp ha with ha' | ha' <;>
      rcases List.mem_cons.mp hb with hb' | hb'
    · rw [← ha'] at hb'
      exact (Prod.mk.injEq _ _ _ _ ▸ hb').2.symm
    · exfalso
      exact h.1 (ha' ▸ (List.mem_map.mpr ⟨(r, b), hb', rfl⟩ : r ∈ rest.map Prod.fst))
    · exfalso
      exact h.1 (hb' ▸ (List.mem_map.mpr ⟨(r, a), ha', rfl⟩ : r ∈ rest.map Prod.fst))
    · exact ih h.2 ha' hb'

/-- Invariant of the deduplication loop: after processing the prefix `done` of
the tentative mappings, the insertion-ordered dict `acc` has consistent and
duplicate-free row keys, covers every processed row, and each stored mapping
is the first-seen maximum of its row within `done` (strictly above everything
before it, at least everything after it). -/
def DedupInv (done : List MappingResult) (acc : List (Int × MappingResult)) : Prop :=
  (∀ p ∈ acc, p.2.template_field.row = p.1) ∧
  (acc.map Prod.fst).Nodup ∧
  (∀ t ∈ done, ∃ p ∈ acc, p.1 = t.template_field.row) ∧
  (∀ p ∈ acc, ∃ l1 l2, done = l1 ++ p.2 :: l2 ∧
    (∀ t ∈ l1, t.template_field.row = p.1 →
      t.match_confidence < p.2.match_confidence) ∧
    (∀ t ∈ l2, t.template_field.row = p.1 →
      t.match_confidence ≤ p.2.match_confidence))

theorem dedupInv_step {done : List MappingResult}
    {acc : List (Int × MappingResult)} (h : DedupInv done acc)
    (m : MappingResult) : DedupInv (done ++ [m]) (updateBest acc m) := by
  obtain ⟨hkey, hnd, hcov, hwin⟩ := h
  rcases hfr : findRow m.template_field.row acc with _ | prev
  · -- fresh row: append at the end
    have hnot : ∀ p ∈ acc, p.1 ≠ m.template_field.row := findRow_eq_none.mp hfr
    rw [updateBest_none hfr]
    refine ⟨?_, ?_, ?_, ?_⟩
    · intro p hp
      rcases List.mem_append.mp hp with h' | h'
      · exact hkey p h'
      · simp only [List.mem_singleton] at h'
        rw [h']
    · rw [List.map_append]
      refine List.Nodup.append hnd (by simp) ?_
      intro r hr hr'
      simp only [List.map_cons, List.map_nil, List.mem_singleton] at hr'
      obtain ⟨p, hp, hpr⟩ := List.mem_map.mp hr
      exact hnot p hp (hpr.trans hr')
    · intro t ht
      rcases List.mem_append.mp ht with h' | h'
      · obtain ⟨p, hp, hpr⟩ := hcov t h'
        exact ⟨p, List.mem_append_left _ hp, hpr⟩
      · simp only [List.mem_singleton] at h'
        exact ⟨(m.template_field.row, m),
          List.mem_append_right _ (List.mem_singleton_self _), by rw [h']⟩
    · intro p hp
      rcases List.mem_append.mp hp with h' | h'
      · obtain ⟨l1, l2, hdone, h1, h2⟩ := hwin p h'
        refine ⟨l1, l2 ++ [m], by rw [hdone, List.append_assoc]; rfl, h1, ?_⟩
        intro t ht hrow
        rcases List.mem_append.mp ht with hm2 | hm2
        · exact h2 t hm2 hrow
        · simp only [List.mem_singleton] at hm2
          subst hm2
          exact absurd hrow.symm (hnot p h')
      · simp only [List.mem_singleton] at h'
        subst h'
        refine ⟨done, [], by simp, ?_, by simp⟩
        intro t ht hrow
        obtain ⟨q, hq, hqr⟩ := hcov t ht
        exact absurd (hqr.trans hrow) (hnot q hq)
  · -- existing row
    have hprevmem : (m.template_field.row, prev) ∈ acc := findRow_mem hfr
    by_cases hc : prev.match_confidence < m.match_confidence
    · rw [updateBest_some_lt hfr hc]
      have hfst : ∀ p : Int × MappingResult,
          (if p.1 = m.template_field.row then (p.1, m) else p).1 = p.1 := by
        intro p
        by_cases hp : p.1 = m.template_field.row <;> simp [hp]
      have hmapfst :
          ((acc.map fun p => if p.1 = m.template_field.row then (p.1, m) else p).map
            Prod.fst) = acc.map Prod.fst := by
        rw [List.map_map]
        exact List.map_congr_left fun p _ => hfst p
      refine ⟨?_, ?_, ?_, ?_⟩
      · intro p' hp'
        obtain ⟨p, hp, hrep⟩ := List.mem_map.mp hp'
        by_cases hpr : p.1 = m.template_field.row
        · rw [← hrep, if_pos hpr, hpr]
        · rw [← hrep, if_neg hpr]
          exact hkey p hp
      · rw [hmapfst]; exact hnd
      · intro t ht
        rcases List.mem_append.mp ht with h' | h'
        · obtain ⟨p, hp, hpr⟩ := hcov t h'
          refine ⟨(if p.1 = m.template_field.row then (p.1, m) else p),
            List.mem_map.mpr ⟨p, hp, rfl⟩, ?_⟩
          rw [hfst p]; exact hpr
        · simp only [List.mem_singleton] at h'
          refine ⟨(m.template_field.row, m),
            List.mem_map.mpr ⟨(m.template_field.row, prev), hprevmem, by simp⟩, by rw [h']⟩
      · intro p' hp'
        obtain ⟨p, hp, hrep⟩ := List.mem_map.mp hp'
        by_cases hpr : p.1 = m.template_field.row
        · -- the replaced entry: p must be (row, prev)
          rw [← hrep, if_pos hpr]
          obtain ⟨L1, L2, hdone, g1, g2⟩ := hwin _ hprevmem
          refine ⟨done, [], by simp, ?_, by simp⟩
          intro t ht hrow
          simp only at hrow
          rw [hpr] at hrow
          rw [hdone] at ht
          rcases List.mem_append.mp ht with hm2 | hm2
          · exact lt_trans (g1 t hm2 hrow) hc
          · rcases List.mem_cons.mp hm2 with hm3 | hm3
            · rw [hm3]; exact hc
            · exact lt_of_le_of_lt (g2 t hm3 hrow) hc
        · rw [← hrep, if_neg hpr]
          obtain ⟨l1, l2, hdone, h1, h2⟩ := hwin p hp
          refine ⟨l1, l2 ++ [m], by rw [hdone, List.append_assoc]; rfl, h1, ?_⟩
          intro t ht hrow
          rcases List.mem_append.mp ht with hm2 | hm2
          · exact h2 t hm2 hrow
          · simp only [List.mem_singleton] at hm2
            subst hm2
            exact absurd hrow.symm hpr
    · rw [updateBest_some_ge hfr hc]
      refine ⟨hkey, hnd, ?_, ?_⟩
      · intro t ht
        rcases List.mem_append.mp ht with h' | h'
        · exact hcov t h'
        · simp only [List.mem_singleton] at h'
          exact ⟨(m.template_field.row, prev), hprevmem, by rw [h']⟩
      · intro p hp
        obtain ⟨l1, l2, hdone, h1, h2⟩ := hwin p hp
        refine ⟨l1, l2 ++ [m], by rw [hdone, List.append_assoc]; rfl, h1, ?_⟩
        intro t ht hrow
        rcases List.mem_append.mp ht with hm2 | hm2
        · exact h2 t hm2 hrow
        · simp only [List.mem_singleton] at hm2
          rw [hm2] at hrow ⊢
          by_cases hpr : p.1 = m.template_field.row
          · have hp2 : p.2 = prev := keys_unique hnd
              (show (m.template_field.row, p.2) ∈ acc by rw [← hpr]; exact hp)
              hprevmem
            rw [hp2]
            exact le_of_not_lt hc
          · exact absurd hrow.symm hpr

theorem dedupInv_fold : ∀ (ms : List MappingResult) (done : List MappingResult)
    (acc : List (Int × MappingResult)), DedupInv done acc →
    DedupInv (done ++ ms) (ms.foldl updateBest acc) := by
  intro ms
  induction ms with
  | nil => intro done acc h; simpa using h
  | cons m rest ih =>
    intro done acc h
    have h' := ih (done ++ [m]) (updateBest acc m) (dedupInv_step h m)
    rw [List.append_assoc] at h'
    simpa using h'

theorem dedupInv_start (ms : List MappingResult) :
    DedupInv ms (ms.foldl updateBest []) := by
  have h := dedupInv_fold ms [] [] ⟨by simp, by simp, by simp, by simp⟩
  simpa using h

/-- Master property of deduplication: rows in the output are pairwise
distinct; every tentative row survives; and every output mapping is the
first-seen maximum-confidence tentative mapping of its row. -/
theorem dedup_master (ms : List MappingResult) :
    ((dedupMappings ms).Pairwise fun a b =>
      a.template_field.row ≠ b.template_field.row) ∧
    (∀ t ∈ ms, ∃ m ∈ dedupMappings ms,
      m.template_field.row = t.template_field.row) ∧
    (∀ m ∈ dedupMappings ms, ∃ l1 l2, ms = l1 ++ m :: l2 ∧
      (∀ t ∈ l1, t.template_field.row = m.template_field.row →
        t.match_confidence < m.match_confidence) ∧
      (∀ t ∈ l2, t.template_field.row = m.template_field.row →
        t.match_confidence ≤ m.match_confidence)) := by
  obtain ⟨hkey, hnd, hcov, hwin⟩ := dedupInv_start ms
  refine ⟨?_, ?_, ?_⟩
  · have hrows : ((ms.foldl updateBest []).map Prod.snd).map
        (fun m => m.template_field.row) = (ms.foldl updateBest []).map Prod.fst := by
      rw [List.map_map]
      exact List.map_congr_left fun p hp => hkey p hp
    have : (((ms.foldl updateBest []).map Prod.snd).map
        (fun m => m.template_field.row)).Nodup := by rw [hrows]; exact hnd
    exact List.pairwise_map.mp this
  · intro t ht
    obtain ⟨p, hp, hpr⟩ := hcov t ht
    exact ⟨p.2, List.mem_map.mpr ⟨p, hp, rfl⟩, (hkey p hp).trans hpr⟩
  · intro m hm
    obtain ⟨p, hp, hps⟩ := List.mem_map.mp hm
    subst hps
    obtain ⟨l1, l2, hdone, h1, h2⟩ := hwin p hp
    have hkp : p.2.template_field.row = p.1 := hkey p hp
    exact ⟨l1, l2, hdone,
      fun t ht h => h1 t ht (by rw [h, hkp]),
      fun t ht h => h2 t ht (by rw [h, hkp])⟩

/-- Every tentative mapping has confidence strictly above 0.3. -/
theorem tentative_conf {specs : List ExtractedSpec} {fields : List TemplateField} :
    ∀ m ∈ tentativeMappings specs fields, 3 / 10 < m.match_confidence := by
  intro m hm
  obtain ⟨s, _, heq⟩ := List.mem_filterMap.mp hm
  rcases hb : bestCandidate s fields with ⟨_ | f, c⟩
  · rw [hb] at heq; simp at heq
  · rw [hb] at heq
    simp only at heq
    by_cases hc : 3 / 10 < c
    · rw [if_pos hc] at heq
      injection heq with heq
      rw [← heq]
      exact hc
    · rw [if_neg hc] at heq; cases heq

/-- A best candidate above the threshold yields a tentative mapping. -/
theorem tentative_of_best {specs : List ExtractedSpec} {fields : List TemplateField}
    {s : ExtractedSpec} {f : TemplateField} {c : ℚ} (hs : s ∈ specs)
    (hb : bestCandidate s fields = (some f, c)) (hc : 3 / 10 < c) :
    (⟨f, s, c⟩ : MappingResult) ∈ tentativeMappings specs fields := by
  refine List.mem_filterMap.mpr ⟨s, hs, ?_⟩
  rw [hb]
  simp only
  rw [if_pos hc]

/-! ## Claims C3 and C4 -/

/-- C3: the mapper output has at most one mapping per template-field row; each
row that received a qualifying tentative mapping keeps exactly one (the
pairwise clause gives uniqueness, the coverage clause existence); and the kept
mapping is the tentative mapping of its row with the strictly greatest match
confidence, first-seen winning ties (strictly above all earlier same-row
tentatives, at least all later ones). -/
theorem mapper_dedup_best_per_row (specs : List ExtractedSpec)
    (fields : List TemplateField) :
    ((map_specs_to_template specs fields).Pairwise fun a b =>
      a.template_field.row ≠ b.template_field.row) ∧
    (∀ t ∈ tentativeMappings specs fields, ∃ m ∈ map_specs_to_template specs fields,
      m.template_field.row = t.template_field.row) ∧
    (∀ m ∈ map_specs_to_template specs fields, ∃ l1 l2,
      tentativeMappings specs fields = l1 ++ m :: l2 ∧
      (∀ t ∈ l1, t.template_field.row = m.template_field.row →
        t.match_confidence < m.match_confidence) ∧
      (∀ t ∈ l2, t.template_field.row = m.template_field.row →
        t.match_confidence ≤ m.match_confidence)) := by
  unfold map_specs_to_template
  by_cases hempty : specs.isEmpty
  · have hspecs : specs = [] := List.isEmpty_iff.mp hempty
    rw [if_pos hempty]
    subst hspecs
    refine ⟨List.Pairwise.nil, ?_, ?_⟩
    · intro t ht; simp [tentativeMappings] at ht
    · intro m hm; cases hm
  · rw [if_neg hempty]
    exact dedup_master (tentativeMappings specs fields)

/-- C3 witness: the output for a concrete run has pairwise-distinct rows and
its mapping is the first-seen maximum of its row. -/
theorem mapper_dedup_best_per_row_witness :
    ((map_specs_to_template [cexSpec] [cexF1, cexF2]).Pairwise fun a b =>
      a.template_field.row ≠ b.template_field.row) ∧
    (∀ m ∈ map_specs_to_template [cexSpec] [cexF1, cexF2], ∃ l1 l2,
      tentativeMappings [cexSpec] [cexF1, cexF2] = l1 ++ m :: l2 ∧
      (∀ t ∈ l1, t.template_field.row = m.template_field.row →
        t.match_confidence < m.match_confidence) ∧
      (∀ t ∈ l2, t.template_field.row = m.template_field.row →
        t.match_confidence ≤ m.match_confidence)) :=
  ⟨(mapper_dedup_best_per_row [cexSpec] [cexF1, cexF2]).1,
   (mapper_dedup_best_per_row [cexSpec] [cexF1, cexF2]).2.2⟩

/-- C4: every mapping in the output has match confidence strictly above 0.3
(a tentative mapping at or below 0.3 never enters), and every spec whose best
candidate exceeds 0.3 is represented in the output at its field's row with at
least that confidence (per-field deduplication may replace it by a better
same-row mapping). -/
theorem mapper_threshold (specs : List ExtractedSpec) (fields : List TemplateField) :
    (∀ m ∈ map_specs_to_template specs fields, 3 / 10 < m.match_confidence) ∧
    (∀ s ∈ specs, ∀ (f : TemplateField) (c : ℚ),
      bestCandidate s fields = (some f, c) → 3 / 10 < c →
      ∃ m ∈ map_specs_to_template specs fields,
        m.template_field.row = f.row ∧ c ≤ m.match_confidence) := by
  have hmaster := dedup_master (tentativeMappings specs fields)
  have hout : ∀ m ∈ map_specs_to_template specs fields,
      m ∈ dedupMappings (tentativeMappings specs fields) := by
    intro m hm
    unfold map_specs_to_template at hm
    by_cases hempty : specs.isEmpty
    · rw [if_pos hempty] at hm; cases hm
    · rw [if_neg hempty] at hm; exact hm
  constructor
  · intro m hm
    obtain ⟨l1, l2, hdec, _, _⟩ := hmaster.2.2 m (hout m hm)
    exact tentative_conf m (by rw [hdec]; exact List.mem_append_right _ (List.mem_cons_self _ _))
  · intro s hs f c hb hc
    have hts : (⟨f, s, c⟩ : MappingResult) ∈ tentativeMappings specs fields :=
      tentative_of_best hs hb hc
    have hne : ¬ specs.isEmpty := by
      intro hempty
      rw [List.isEmpty_iff.mp hempty] at hs
      cases hs
    obtain ⟨m, hm, hrow⟩ := hmaster.2.1 _ hts
    have hmout : m ∈ map_specs_to_template specs fields := by
      unfold map_specs_to_template
      rw [if_neg hne]
      exact hm
    refine ⟨m, hmout, hrow, ?_⟩
    obtain ⟨l1, l2, hdec, h1, h2⟩ := hmaster.2.2 m hm
    rw [hdec] at hts
    rcases List.mem_append.mp hts with h' | h'
    · exact le_of_lt (h1 _ h' hrow.symm)
    · rcases List.mem_cons.mp h' with hm2 | hm2
      · exact le_of_eq (congrArg MappingResult.match_confidence hm2)
      · exact h2 _ hm2 hrow.symm

/-- C4 witness: the concrete spec's 0.72-confidence candidate is above the
0.3 threshold and appears in the output at its field's row. -/
theorem mapper_threshold_witness :
    ∃ m ∈ map_specs_to_template [cexSpec] [cexF1, cexF2],
      m.template_field.row = cexF2.row ∧
      cexSpec.confidence * (9 / 10) ≤ m.match_confidence :=
  (mapper_threshold [cexSpec] [cexF1, cexF2]).2 cexSpec (by simp) cexF2
    (cexSpec.confidence * (9 / 10)) cex_best (by norm_num [cexSpec])

/-! ## Claim C5 -/

/-- C5: `get_unmatched_specs` keeps exactly the specs whose (case-insensitive)
name is shared by no mapping's underlying extracted spec — comparison is by
name, not object identity — and the output is a sublist of the input, so the
input order is preserved. -/
theorem unmatched_name_characterization (E : List ExtractedSpec)
    (M : List MappingResult) :
    (∀ s, s ∈ get_unmatched_specs E M ↔
      (s ∈ E ∧ ∀ m ∈ M, pyLower m.extracted_spec.spec_name ≠ pyLower s.spec_name)) ∧
    (get_unmatched_specs E M).Sublist E := by
  constructor
  · intro s
    unfold get_unmatched_specs
    rw [List.mem_filter]
    constructor
    · rintro ⟨hsE, hb⟩
      refine ⟨hsE, ?_⟩
      intro m hm heq
      rw [Bool.not_eq_true', ← Bool.not_eq_true] at hb
      exact hb (List.contains_iff_exists_mem_beq.mpr
        ⟨pyLower m.extracted_spec.spec_name, List.mem_map.mpr ⟨m, hm, rfl⟩,
          beq_iff_eq.mpr heq.symm⟩)
    · rintro ⟨hsE, hb⟩
      refine ⟨hsE, ?_⟩
      rw [Bool.not_eq_true', ← Bool.not_eq_true]
      intro hcon
      obtain ⟨x, hx, hbeq⟩ := List.contains_iff_exists_mem_beq.mp hcon
      obtain ⟨m, hm, hxm⟩ := List.mem_map.mp hx
      exact hb m hm (hxm.trans (beq_iff_eq.mp hbeq).symm)
  · exact List.filter_sublist E

/-- C5 witness at a concrete spec list and empty mapping set. -/
theorem unmatched_name_characterization_witness :
    cexSpec ∈ get_unmatched_specs [cexSpec] [] ↔
      (cexSpec ∈ [cexSpec] ∧ ∀ m ∈ ([] : List MappingResult),
        pyLower m.extracted_spec.spec_name ≠ pyLower cexSpec.spec_name) :=
  (unmatched_name_characterization [cexSpec] []).1 cexSpec

/-! ## Claims C8 and C9 -/

/-- C8: a blank (empty or whitespace-only) page yields the empty spec list
without invoking the oracle; an oracle response that fails to parse as JSON
after code-fence stripping, or parses to a non-list, also yields the empty
list (the function is total, so it never raises). -/
theorem extract_fail_soft (gen : GenResult) (pt ot pl fn : String)
    (flds : List TemplateField)
    (h : pyStrip pt = "" ∨ gen = GenResult.parseError ∨ gen = GenResult.notAList) :
    (extract_specs_from_page gen pt ot pl fn flds).1 = [] ∧
    (pyStrip pt = "" → extract_specs_from_page gen pt ot pl fn flds = ([], 0)) := by
  unfold extract_specs_from_page
  rcases h with h | h | h
  · rw [if_pos h]
    exact ⟨rfl, fun _ => rfl⟩
  · subst h
    by_cases hb : pyStrip pt = ""
    · rw [if_pos hb]
      exact ⟨rfl, fun _ => rfl⟩
    · rw [if_neg hb]
      exact ⟨rfl, fun hc => absurd hc hb⟩
  · subst h
    by_cases hb : pyStrip pt = ""
    · rw [if_pos hb]
      exact ⟨rfl, fun _ => rfl⟩
    · rw [if_neg hb]
      exact ⟨rfl, fun hc => absurd hc hb⟩

/-- C8 witness: whitespace-only page text with a malformed response. -/
theorem extract_fail_soft_witness :
    (extract_specs_from_page GenResult.parseError " " "" "Page 1" "f.pdf" []).1 = [] ∧
    (pyStrip " " = "" →
      extract_specs_from_page GenResult.parseError " " "" "Page 1" "f.pdf" [] = ([], 0)) :=
  extract_fail_soft GenResult.parseError " " "" "Page 1" "f.pdf" [] (Or.inl (by decide))

/-- C9 counterexample: an oracle item reporting confidence 1.5 produces an
`ExtractedSpec` whose confidence is 1.5, outside the unit interval — the code
copies `item.get("confidence", 0.0)` without clamping or validation. -/
theorem extract_confidence_cex :
    ((extract_specs_from_page (GenResult.jsonList [badItem]) "t" "" "Page 1" "f.pdf"
        []).1.map ExtractedSpec.confidence) = [(3 : ℚ) / 2] ∧
    ¬((3 : ℚ) / 2 ≤ 1) :=
  ⟨rfl, by norm_num⟩

/-- C9 (amended): each produced `ExtractedSpec` carries exactly the item's
reported confidence (0.0 when missing), with no clamping; consequently all
output confidences lie in [0,1] when (and only to the extent that) every
reported value does. -/
theorem extract_confidence_passthrough (items : List RespItem)
    (pt ot pl fn : String) (flds : List TemplateField) (hpt : pyStrip pt ≠ "") :
    ((extract_specs_from_page (GenResult.jsonList items) pt ot pl fn flds).1.map
      ExtractedSpec.confidence) = items.map (fun i => i.confidence.getD 0) ∧
    ((∀ i ∈ items, 0 ≤ i.confidence.getD 0 ∧ i.confidence.getD 0 ≤ 1) →
      ∀ sp ∈ (extract_specs_from_page (GenResult.jsonList items) pt ot pl fn flds).1,
        0 ≤ sp.confidence ∧ sp.confidence ≤ 1) := by
  have h : (extract_specs_from_page (GenResult.jsonList items) pt ot pl fn flds).1 =
      items.map (mkExtractedSpec pt ot pl fn) := by
    unfold extract_specs_from_page
    rw [if_neg hpt]
  constructor
  · rw [h, List.map_map]
    rfl
  · intro hall sp hsp
    rw [h] at hsp
    obtain ⟨i, hi, hrep⟩ := List.mem_map.mp hsp
    rw [← hrep]
    exact hall i hi

/-- C9 (amended) witness at the out-of-range item. -/
theorem extract_confidence_passthrough_witness :
    ((extract_specs_from_page (GenResult.jsonList [badItem]) "t" "" "Page 1" "f.pdf"
        []).1.map ExtractedSpec.confidence) =
      [badItem].map (fun i => i.confidence.getD 0) ∧
    ((∀ i ∈ [badItem], 0 ≤ i.confidence.getD 0 ∧ i.confidence.getD 0 ≤ 1) →
      ∀ sp ∈ (extract_specs_from_page (GenResult.jsonList [badItem]) "t" "" "Page 1"
          "f.pdf" []).1, 0 ≤ sp.confidence ∧ sp.confidence ≤ 1) :=
  extract_confidence_passthrough [badItem] "t" "" "Page 1" "f.pdf" [] (by decide)

/-! ## Claims C6, C7 and C10 -/

theorem cacheLookup_insert_self (key v : String) :
    ∀ c : TranslationCache, cacheLookup key (cacheInsert key v c) = some v := by
  intro c
  induction c with
  | nil => simp [cacheInsert, cacheLookup]
  | cons p rest ih =>
    unfold cacheInsert
    by_cases hp : p.1 = key
    · rw [if_pos hp]
      simp [cacheLookup]
    · rw [if_neg hp]
      unfold cacheLookup
      rw [if_neg hp]
      exact ih

/-- C7: on a cache miss with a failing oracle, `translate_text` returns the
input text unchanged (fail-soft, and total, hence it never raises); for a page
whose detected language needs translation this leaves `translate_page`'s
primary text equal to the pre-call text while `original_text` is still set to
the pre-call text. -/
theorem translate_page_fail_soft (tr : GeminiTranslator) (cache : TranslationCache)
    (page : ParsedPage)
    (hneeds : tr.needs_translation (tr.detect page.text) = true)
    (hmiss : load_from_cache tr cache (tr.cacheKey page.text) = none)
    (hfail : tr.oracle (tr.detect page.text) page.text = none) :
    (translate_text tr cache page.text (tr.detect page.text)).result = page.text ∧
    (translate_page tr cache page).1.text = page.text ∧
    (translate_page tr cache page).1.original_text = page.text := by
  have htt : (translate_text tr cache page.text (tr.detect page.text)).result
      = page.text := by
    unfold translate_text
    by_cases hblank : pyStrip page.text = ""
    · rw [if_pos hblank]
    · rw [if_neg hblank]
      simp only [hmiss, hfail]
  have hpage : (translate_page tr cache page).1.text = page.text ∧
      (translate_page tr cache page).1.original_text = page.text := by
    unfold translate_page
    simp only [hneeds, if_pos]
    exact ⟨htt, trivial⟩
  exact ⟨htt, hpage⟩

/-- C7 witness: always-raising oracle stub on a concrete page. -/
theorem translate_page_fail_soft_witness :
    (translate_text stubFailTranslator [] cexPage.text
      (stubFailTranslator.detect cexPage.text)).result = cexPage.text ∧
    (translate_page stubFailTranslator [] cexPage).1.text = cexPage.text ∧
    (translate_page stubFailTranslator [] cexPage).1.original_text = cexPage.text :=
  translate_page_fail_soft stubFailTranslator [] cexPage (by decide) (by decide)
    (by decide)

/-- C10: when the oracle call fails on non-blank text with no cache hit, the
cache is left unchanged (the fallback result is never persisted), the call
reports the original text, and a subsequent call with the same text invokes
the oracle again rather than being served a cached failure. -/
theorem translate_failure_not_cached (tr : GeminiTranslator)
    (cache : TranslationCache) (t L : String) (ht : pyStrip t ≠ "")
    (hmiss : load_from_cache tr cache (tr.cacheKey t) = none)
    (hfail : tr.oracle L t = none) :
    (translate_text tr cache t L).cache = cache ∧
    (translate_text tr cache t L).result = t ∧
    (translate_text tr cache t L).oracle_calls = 1 ∧
    (translate_text tr (translate_text tr cache t L).cache t L).oracle_calls = 1 := by
  have h : translate_text tr cache t L = ⟨t, cache, 1⟩ := by
    unfold translate_text
    rw [if_neg ht]
    simp only [hmiss, hfail]
  rw [h]
  refine ⟨rfl, rfl, rfl, ?_⟩
  rw [show (⟨t, cache, 1⟩ : TranslateOutcome).cache = cache from rfl, h]

/-- C10 witness: failing oracle stub, fresh cache. -/
theorem translate_failure_not_cached_witness :
    (translate_text stubFailTranslator [] "Hallo" "de").cache = [] ∧
    (translate_text stubFailTranslator [] "Hallo" "de").result = "Hallo" ∧
    (translate_text stubFailTranslator [] "Hallo" "de").oracle_calls = 1 ∧
    (translate_text stubFailTranslator
      ((translate_text stubFailTranslator [] "Hallo" "de").cache) "Hallo"
      "de").oracle_calls = 1 :=
  translate_failure_not_cached stubFailTranslator [] "Hallo" "de" (by decide)
    (by decide) (by decide)

/-- C6 counterexample: with an oracle that fails, two `translate_text` calls
on the same non-whitespace text with the cache enabled return identical output
yet invoke the oracle twice in total — the failure result is (deliberately)
not cached, so "at most one oracle call in total" does not hold as stated. -/
theorem translate_twice_oracle_cex :
    (translate_text stubFailTranslator [] "Hallo" "de").result =
      (translate_text stubFailTranslator
        ((translate_text stubFailTranslator [] "Hallo" "de").cache) "Hallo"
        "de").result ∧
    stubFailTranslator.cache_enabled = true ∧
    pyStrip "Hallo" ≠ "" ∧
    ¬((translate_text stubFailTranslator [] "Hallo" "de").oracle_calls +
      (translate_text stubFailTranslator
        ((translate_text stubFailTranslator [] "Hallo" "de").cache) "Hallo"
        "de").oracle_calls ≤ 1) := by
  decide

/-- C6 (amended): for non-whitespace text with the cache enabled, provided the
oracle call on this text succeeds and its stripped result is non-empty, two
consecutive `translate_text` calls return identical output, the second is
answered without an oracle call, at most one oracle call happens in total, and
on a cache miss the first call persists the stripped oracle result under the
content-hash key. -/
theorem translate_idempotent_cache (tr : GeminiTranslator)
    (cache : TranslationCache) (t L resp : String)
    (hen : tr.cache_enabled = true) (ht : pyStrip t ≠ "")
    (hor : tr.oracle L t = some resp) (hresp : pyStrip resp ≠ "") :
    (translate_text tr cache t L).result =
      (translate_text tr (translate_text tr cache t L).cache t L).result ∧
    (translate_text tr (translate_text tr cache t L).cache t L).oracle_calls = 0 ∧
    (translate_text tr cache t L).oracle_calls +
      (translate_text tr (translate_text tr cache t L).cache t L).oracle_calls ≤ 1 ∧
    (load_from_cache tr cache (tr.cacheKey t) = none →
      cacheLookup (tr.cacheKey t) (translate_text tr cache t L).cache =
        some (pyStrip resp)) := by
  have horstep : ∀ cache' : TranslationCache,
      load_from_cache tr cache' (tr.cacheKey t) = none ∨
        load_from_cache tr cache' (tr.cacheKey t) = some "" →
      translate_text tr cache' t L =
        ⟨pyStrip resp, cacheInsert (tr.cacheKey t) (pyStrip resp) cache', 1⟩ := by
    intro cache' hlc
    unfold translate_text
    rw [if_neg ht]
    rcases hlc with hlc | hlc
    · simp only [hlc, hor, save_to_cache, if_pos hen]
    · simp only [hlc, hor, save_to_cache, if_pos hen]
      simp
  have hsecond : ∀ cache' : TranslationCache,
      load_from_cache tr cache' (tr.cacheKey t) = some (pyStrip resp) →
      translate_text tr cache' t L = ⟨pyStrip resp, cache', 0⟩ := by
    intro cache' hlc
    unfold translate_text
    rw [if_neg ht]
    simp only [hlc]
    rw [if_neg hresp]
  have hload_ins : load_from_cache tr
      (cacheInsert (tr.cacheKey t) (pyStrip resp) cache) (tr.cacheKey t) =
      some (pyStrip resp) := by
    unfold load_from_cache
    rw [if_pos hen]
    exact cacheLookup_insert_self _ _ _
  rcases hlc : load_from_cache tr cache (tr.cacheKey t) with _ | c
  · -- cache miss: oracle once, then a hit
    have h1 := horstep cache (Or.inl hlc)
    rw [h1]
    have h2 := hsecond (cacheInsert (tr.cacheKey t) (pyStrip resp) cache) hload_ins
    rw [show (⟨pyStrip resp, cacheInsert (tr.cacheKey t) (pyStrip resp) cache, 1⟩ :
        TranslateOutcome).cache =
        cacheInsert (tr.cacheKey t) (pyStrip resp) cache from rfl, h2]
    exact ⟨rfl, rfl, by norm_num, fun _ => cacheLookup_insert_self _ _ _⟩
  · by_cases hc : c = ""
    · -- cached falsy value: behaves like a miss
      subst hc
      have h1 := horstep cache (Or.inr hlc)
      rw [h1]
      have h2 := hsecond (cacheInsert (tr.cacheKey t) (pyStrip resp) cache) hload_ins
      rw [show (⟨pyStrip resp, cacheInsert (tr.cacheKey t) (pyStrip resp) cache, 1⟩ :
          TranslateOutcome).cache =
          cacheInsert (tr.cacheKey t) (pyStrip resp) cache from rfl, h2]
      refine ⟨rfl, rfl, by norm_num, ?_⟩
      intro hnone
      exact Option.noConfusion hnone
    · -- true cache hit on both calls
      have h1 : translate_text tr cache t L = ⟨c, cache, 0⟩ := by
        unfold translate_text
        rw [if_neg ht]
        simp only [hlc]
        rw [if_neg hc]
      rw [h1]
      rw [show (⟨c, cache, 0⟩ : TranslateOutcome).cache = cache from rfl, h1]
      refine ⟨rfl, rfl, by norm_num, ?_⟩
      intro hnone
      exact Option.noConfusion hnone

/-- C6 (amended) witness: succeeding oracle stub, fresh cache. -/
theorem translate_idempotent_cache_witness :
    (translate_text stubOkTranslator [] "Hallo" "de").result =
      (translate_text stubOkTranslator
        ((translate_text stubOkTranslator [] "Hallo" "de").cache) "Hallo"
        "de").result ∧
    (translate_text stubOkTranslator
      ((translate_text stubOkTranslator [] "Hallo" "de").cache) "Hallo"
      "de").oracle_calls = 0 ∧
    (translate_text stubOkTranslator [] "Hallo" "de").oracle_calls +
      (translate_text stubOkTranslator
        ((translate_text stubOkTranslator [] "Hallo" "de").cache) "Hallo"
        "de").oracle_calls ≤ 1 ∧
    (load_from_cache stubOkTranslator [] (stubOkTranslator.cacheKey "Hallo") = none →
      cacheLookup (stubOkTranslator.cacheKey "Hallo")
        (translate_text stubOkTranslator [] "Hallo" "de").cache =
        some (pyStrip "EN Hallo")) :=
  translate_idempotent_cache stubOkTranslator [] "Hallo" "de" "EN Hallo" rfl
    (by decide) rfl (by decide)

end RfqAnalyzer
